import Mathlib

/-!
The queue and stat client `gores` of `resq.go`.

A shallow embedding of `src/gores/resq.go`.  The client talks to a Redis
server through `conn.Do`; the server is modelled by the state `Redis` and
the function `Do`, which also records every command issued.  Whether the
connection works is part of that state and does not change during a run.
Items are Go values (`GoVal`), payloads are JSON texts produced by `Marshal`
and read back by `Unmarshal`, the models of `json.Marshal` and of
`json.Unmarshal` into a `map[string]interface{}`.  A method takes the server
and returns its result with the server afterwards; a Go run-time panic is the
`Except.error` outcome of a method.
-/

namespace Gores

/-! ## Go values and decoded JSON values -/

/-- Go values that a caller can hand over as `item interface{}`: the fragment
without floating point numbers, pointers and struct tags.  A struct is its
list of fields in declaration order, `chan` is a channel value. -/
inductive GoVal where
  | nil
  | bool (b : Bool)
  | int (i : Int)
  | str (s : String)
  | slice (xs : List GoVal)
  | strmap (kvs : List (String × GoVal))
  | struct (fields : List (String × GoVal))
  | chan

/-- Values that `json.Unmarshal` stores in an `interface{}`.  A number is kept
as its literal, which determines the `float64` that Go stores. -/
inductive Json where
  | null
  | bool (b : Bool)
  | num (lit : String)
  | str (s : String)
  | arr (xs : List Json)
  | obj (kvs : List (String × Json))

/-- A Go `map[string]interface{}` that is not nil: its entries, one per key. -/
abbrev JMap := List (String × Json)

/-- Reading `m[k]`. -/
def mapGet (k : String) : JMap → Option Json
  | [] => none
  | (k1, v) :: rest => if k1 = k then some v else mapGet k rest

/-- The assignment `m[k] = v`: replaces the entry of `k` or adds one. -/
def mapSet (k : String) (v : Json) : JMap → JMap
  | [] => [(k, v)]
  | (k1, v1) :: rest => if k1 = k then (k, v) :: rest else (k1, v1) :: mapSet k v rest

/-- Removing the entry of `k`, the Go `delete(m, k)`. -/
def mapDelete (k : String) : JMap → JMap
  | [] => []
  | (k1, v1) :: rest => if k1 = k then mapDelete k rest else (k1, v1) :: mapDelete k rest

/-! ## Characters -/

/-- The double quote. -/
def dquote : Char := Char.ofNat 34

/-- The backslash. -/
def bslash : Char := Char.ofNat 92

/-- The lower-case hexadecimal digit of a number below 16. -/
def hexDigit (n : Nat) : Char :=
  if n < 10 then Char.ofNat (48 + n) else Char.ofNat (87 + n)

/-- The value of a hexadecimal digit, upper or lower case. -/
def hexVal (c : Char) : Option Nat :=
  if 48 ≤ c.toNat ∧ c.toNat ≤ 57 then some (c.toNat - 48)
  else if 97 ≤ c.toNat ∧ c.toNat ≤ 102 then some (c.toNat - 87)
  else if 65 ≤ c.toNat ∧ c.toNat ≤ 70 then some (c.toNat - 55)
  else none

/-- The value of a decimal digit. -/
def digitVal (c : Char) : Option Nat :=
  if 48 ≤ c.toNat ∧ c.toNat ≤ 57 then some (c.toNat - 48) else none

/-- The number written by a sequence of decimal digits, read after `acc`. -/
def digitsVal : List Char → Nat → Option Nat
  | [], acc => some acc
  | c :: cs, acc =>
    match digitVal c with
    | none => none
    | some d => digitsVal cs (acc * 10 + d)

/-- The decimal text of an integer, as `strconv` and the server write it. -/
def intText (i : Int) : String :=
  match i with
  | Int.ofNat n => ⟨Nat.toDigits 10 n⟩
  | Int.negSucc n => ⟨'-' :: Nat.toDigits 10 (n + 1)⟩

/-! ## `json.Marshal` -/

/-- The escape of one character inside a JSON string, as `encoding/json` writes
it with HTML escaping on. -/
def escapeChar (c : Char) : List Char :=
  if c = dquote then [bslash, dquote]
  else if c = bslash then [bslash, bslash]
  else if c = '\n' then [bslash, 'n']
  else if c = '\r' then [bslash, 'r']
  else if c = '\t' then [bslash, 't']
  else if c.toNat < 32 ∨ c = '<' ∨ c = '>' ∨ c = '&' ∨ c.toNat = 8232 ∨ c.toNat = 8233 then
    [bslash, 'u', hexDigit (c.toNat / 4096 % 16), hexDigit (c.toNat / 256 % 16),
      hexDigit (c.toNat / 16 % 16), hexDigit (c.toNat % 16)]
  else [c]

/-- A JSON string literal. -/
def quoteString (s : String) : List Char :=
  dquote :: (s.data.flatMap escapeChar ++ [dquote])

/-- Insertion of a key and its text into a list sorted by key. -/
def insertSorted (k : String) (t : List Char) : List (String × List Char) → List (String × List Char)
  | [] => [(k, t)]
  | (k1, t1) :: rest =>
    if k < k1 then (k, t) :: (k1, t1) :: rest else (k1, t1) :: insertSorted k t rest

/-- The members of a JSON object, separated by commas. -/
def joinMembers : List (String × List Char) → List Char
  | [] => []
  | [(k, t)] => quoteString k ++ ':' :: t
  | (k, t) :: rest => quoteString k ++ ':' :: t ++ ',' :: joinMembers rest

/-- The elements of a JSON array, separated by commas. -/
def joinElems : List (List Char) → List Char
  | [] => []
  | [t] => t
  | t :: rest => t ++ ',' :: joinElems rest

/-- Whether a struct field is exported: its name starts with an upper-case
letter. -/
def isExported (name : String) : Bool :=
  match name.data with
  | [] => false
  | c :: _ => c.isUpper

mutual
/-- Model of `json.Marshal`: the compact JSON text of a value, or `none` where
the encoder answers an `UnsupportedTypeError`. -/
def Marshal : GoVal → Option (List Char)
  | GoVal.nil => some ['n', 'u', 'l', 'l']
  | GoVal.bool true => some ['t', 'r', 'u', 'e']
  | GoVal.bool false => some ['f', 'a', 'l', 's', 'e']
  | GoVal.int i => some (intText i).data
  | GoVal.str s => some (quoteString s)
  | GoVal.slice xs =>
    match marshalElems xs with
    | none => none
    | some ts => some ('[' :: (joinElems ts ++ [']']))
  | GoVal.strmap kvs =>
    match marshalEntries kvs with
    | none => none
    | some ms => some ('{' :: (joinMembers ms ++ ['}']))
  | GoVal.struct fields =>
    match marshalFields fields with
    | none => none
    | some ms => some ('{' :: (joinMembers ms ++ ['}']))
  | GoVal.chan => none
/-- The texts of the elements of a slice. -/
def marshalElems : List GoVal → Option (List (List Char))
  | [] => some []
  | x :: xs =>
    match Marshal x, marshalElems xs with
    | some t, some ts => some (t :: ts)
    | _, _ => none
/-- The members of a map, sorted by key as the encoder does. -/
def marshalEntries : List (String × GoVal) → Option (List (String × List Char))
  | [] => some []
  | (k, x) :: kvs =>
    match Marshal x, marshalEntries kvs with
    | some t, some ms => some (insertSorted k t ms)
    | _, _ => none
/-- The members of a struct: its exported fields in declaration order. -/
def marshalFields : List (String × GoVal) → Option (List (String × List Char))
  | [] => some []
  | (k, x) :: kvs =>
    if isExported k then
      match Marshal x, marshalFields kvs with
      | some t, some ms => some ((k, t) :: ms)
      | _, _ => none
    else marshalFields kvs
end

/-! ## `json.Unmarshal` into a `map[string]interface{}` -/

/-- Skipping JSON white space. -/
def skipWs : List Char → List Char
  | [] => []
  | c :: cs => if c = ' ' ∨ c = '\t' ∨ c = '\r' ∨ c = '\n' then skipWs cs else c :: cs

/-- The code point of four hexadecimal digits. -/
def hex4 (a b c d : Char) : Option Nat :=
  match hexVal a, hexVal b, hexVal c, hexVal d with
  | some x, some y, some z, some w => some (x * 4096 + y * 256 + z * 16 + w)
  | _, _, _, _ => none

/-- The replacement character U+FFFD. -/
def replacementChar : Char := Char.ofNat 65533

/-- The low half of a surrogate pair that starts the text, if there is one. -/
def lowSurrogate (cs : List Char) : Option (Nat × List Char) :=
  match cs with
  | e :: u :: a :: b :: c :: d :: rest =>
    if e = bslash ∧ u = 'u' then
      match hex4 a b c d with
      | some lo => if 56320 ≤ lo ∧ lo < 57344 then some (lo, rest) else none
      | none => none
    else none
  | _ => none

/-- The body of a JSON string literal after its opening quote: the unquoted
text and the rest of the input.  The fuel bounds the number of characters. -/
def parseStr : Nat → List Char → List Char → Option (String × List Char)
  | 0, _, _ => none
  | _ + 1, [], _ => none
  | fuel + 1, c :: cs, acc =>
    if c = dquote then some (⟨acc.reverse⟩, cs)
    else if c = bslash then
      match cs with
      | [] => none
      | e :: cs1 =>
        if e = dquote then parseStr fuel cs1 (dquote :: acc)
        else if e = bslash then parseStr fuel cs1 (bslash :: acc)
        else if e = '/' then parseStr fuel cs1 ('/' :: acc)
        else if e = 'b' then parseStr fuel cs1 (Char.ofNat 8 :: acc)
        else if e = 'f' then parseStr fuel cs1 (Char.ofNat 12 :: acc)
        else if e = 'n' then parseStr fuel cs1 ('\n' :: acc)
        else if e = 'r' then parseStr fuel cs1 ('\r' :: acc)
        else if e = 't' then parseStr fuel cs1 ('\t' :: acc)
        else if e = 'u' then
          match cs1 with
          | a :: b :: c1 :: d :: cs2 =>
            match hex4 a b c1 d with
            | none => none
            | some r =>
              if 55296 ≤ r ∧ r < 57344 then
                match (if r < 56320 then lowSurrogate cs2 else none) with
                | some (lo, cs3) =>
                  parseStr fuel cs3 (Char.ofNat ((r - 55296) * 1024 + (lo - 56320) + 65536) :: acc)
                | none => parseStr fuel cs2 (replacementChar :: acc)
              else parseStr fuel cs2 (Char.ofNat r :: acc)
          | _ => none
        else none
    else if c.toNat < 32 then none
    else parseStr fuel cs (c :: acc)

/-- Splitting off the leading decimal digits. -/
def spanDigits : List Char → List Char × List Char
  | [] => ([], [])
  | c :: cs =>
    if (digitVal c).isSome then ((spanDigits cs).1.cons c, (spanDigits cs).2) else ([], c :: cs)

/-- The integer part of a JSON number: `0`, or digits that do not start with
`0`. -/
def parseIntPart (cs : List Char) : Option (List Char × List Char) :=
  match spanDigits cs with
  | ([], _) => none
  | (c :: ds, rest) => if c = '0' ∧ ds ≠ [] then some ([c], ds ++ rest) else some (c :: ds, rest)

/-- The optional fraction of a JSON number. -/
def parseFrac (cs : List Char) : Option (List Char × List Char) :=
  match cs with
  | '.' :: cs1 =>
    match spanDigits cs1 with
    | ([], _) => none
    | (ds, rest) => some ('.' :: ds, rest)
  | _ => some ([], cs)

/-- The optional exponent of a JSON number. -/
def parseExp (cs : List Char) : Option (List Char × List Char) :=
  match cs with
  | e :: cs1 =>
    if e = 'e' ∨ e = 'E' then
      match cs1 with
      | s :: cs2 =>
        if s = '+' ∨ s = '-' then
          match spanDigits cs2 with
          | ([], _) => none
          | (ds, rest) => some (e :: s :: ds, rest)
        else
          match spanDigits cs1 with
          | ([], _) => none
          | (ds, rest) => some (e :: ds, rest)
      | [] => none
    else some ([], cs)
  | [] => some ([], cs)

/-- The literal of a JSON number and the rest of the input. -/
def parseNum (cs : List Char) : Option (String × List Char) :=
  let signed : List Char × List Char :=
    match cs with
    | '-' :: cs1 => (['-'], cs1)
    | _ => ([], cs)
  match parseIntPart signed.2 with
  | none => none
  | some (ip, r1) =>
    match parseFrac r1 with
    | none => none
    | some (fp, r2) =>
      match parseExp r2 with
      | none => none
      | some (ep, r3) => some (⟨signed.1 ++ ip ++ fp ++ ep⟩, r3)

mutual
/-- One JSON value and the rest of the input.  The fuel bounds the nesting
and the number of members; the length of the input is enough. -/
def parseValue : Nat → List Char → Option (Json × List Char)
  | 0, _ => none
  | fuel + 1, cs =>
    match skipWs cs with
    | [] => none
    | c :: rest =>
      if c = '{' then
        match skipWs rest with
        | '}' :: rest1 => some (Json.obj [], rest1)
        | _ => parseMembers fuel rest []
      else if c = '[' then
        match skipWs rest with
        | ']' :: rest1 => some (Json.arr [], rest1)
        | _ => parseElems fuel rest []
      else if c = dquote then
        match parseStr (rest.length + 1) rest [] with
        | none => none
        | some (s, rest1) => some (Json.str s, rest1)
      else
        match c :: rest with
        | 't' :: 'r' :: 'u' :: 'e' :: rest1 => some (Json.bool true, rest1)
        | 'f' :: 'a' :: 'l' :: 's' :: 'e' :: rest1 => some (Json.bool false, rest1)
        | 'n' :: 'u' :: 'l' :: 'l' :: rest1 => some (Json.null, rest1)
        | other =>
          match parseNum other with
          | none => none
          | some (lit, rest1) => some (Json.num lit, rest1)
/-- The elements of an array after its opening bracket. -/
def parseElems : Nat → List Char → List Json → Option (Json × List Char)
  | 0, _, _ => none
  | fuel + 1, cs, acc =>
    match parseValue fuel cs with
    | none => none
    | some (v, rest) =>
      match skipWs rest with
      | ',' :: rest1 => parseElems fuel rest1 (acc ++ [v])
      | ']' :: rest1 => some (Json.arr (acc ++ [v]), rest1)
      | _ => none
/-- The members of an object after its opening brace; a repeated key keeps
its last value. -/
def parseMembers : Nat → List Char → JMap → Option (Json × List Char)
  | 0, _, _ => none
  | fuel + 1, cs, acc =>
    match skipWs cs with
    | [] => none
    | q :: cs1 =>
      if q = dquote then
        match parseStr (cs1.length + 1) cs1 [] with
        | none => none
        | some (k, cs2) =>
          match skipWs cs2 with
          | ':' :: cs3 =>
            match parseValue fuel cs3 with
            | none => none
            | some (v, rest) =>
              match skipWs rest with
              | ',' :: rest1 => parseMembers fuel rest1 (mapSet k v acc)
              | '}' :: rest1 => some (Json.obj (mapSet k v acc), rest1)
              | _ => none
          | _ => none
      else none
end

/-- A whole JSON text: one value between optional white space. -/
def parseJson (cs : List Char) : Option Json :=
  match parseValue (cs.length + 1) cs with
  | none => none
  | some (v, rest) =>
    match skipWs rest with
    | [] => some v
    | _ :: _ => none

/-- Model of `json.Unmarshal(data, &decoded)` for a nil
`decoded map[string]interface{}`: the map afterwards (`none` is the nil map)
and whether an error is returned.  A text that is not valid JSON and a value
that is not an object are errors and leave the map nil; `null` leaves it nil
without an error. -/
def Unmarshal (data : String) : Option JMap × Bool :=
  match parseJson data.data with
  | none => (none, true)
  | some (Json.obj kvs) => (some kvs, false)
  | some Json.null => (none, false)
  | some _ => (none, true)

/-! ## `strconv.Atoi` and `fmt.Sprintf` -/

/-- The bound `2^63` of the 64-bit signed integers. -/
def int64Bound : Nat := 9223372036854775808

/-- Model of `strconv.Atoi` on a 64-bit platform: the value and whether an
error is returned.  A syntax error gives 0, a range error the nearest bound. -/
def Atoi (s : String) : Int × Bool :=
  match s.data with
  | [] => (0, true)
  | c :: cs =>
    let body : List Char := if c = '+' ∨ c = '-' then cs else c :: cs
    match body with
    | [] => (0, true)
    | _ :: _ =>
      match digitsVal body 0 with
      | none => (0, true)
      | some n =>
        if c = '-' then
          if n ≤ int64Bound then (-(n : Int), false) else (-(int64Bound : Int), true)
        else
          if n < int64Bound then ((n : Int), false) else ((int64Bound : Int) - 1, true)

/-- Model of `fmt.Sprintf(format, arg)` for a format with one `%s` verb and a
string argument. -/
def sprintf : List Char → String → List Char
  | [], _ => []
  | [c], _ => [c]
  | c :: d :: rest, arg =>
    if c = '%' ∧ d = 's' then arg.data ++ rest else c :: sprintf (d :: rest) arg

/-- Wrapping an integer into the 64-bit signed range, the `int64` addition. -/
def wrapInt64 (i : Int) : Int :=
  (i + int64Bound) % (2 * (int64Bound : Int)) - int64Bound

/-! ## The Redis server behind `conn.Do` -/

/-- The value stored under a key. -/
inductive RVal where
  | str (s : String)
  | list (xs : List String)
  | set (xs : List String)
deriving DecidableEq

/-- The commands that the client issues. -/
inductive Cmd where
  | RPUSH (key val : String)
  | LPOP (key : String)
  | LLEN (key : String)
  | SADD (key member : String)
  | SMEMBERS (key : String)
  | GET (key : String)
  | INCR (key : String)
  | DECR (key : String)
  | DEL (key : String)
deriving DecidableEq

/-- The reply value that `conn.Do` returns as an `interface{}`. -/
inductive Reply where
  | nil
  | int (n : Int)
  | bulk (b : String)
  | array (xs : List Reply)
  | error (msg : String)

/-- The server and the connection to it: whether commands get through, the
keyspace, and the commands issued so far (a call spy on `conn.Do`). -/
structure Redis where
  up : Bool
  db : String → Option RVal
  sent : List Cmd

/-- What one `conn.Do` returns, and the server afterwards. -/
structure DoResult where
  reply : Reply
  err : Option String
  conn : Redis

/-- Writing or deleting the value of one key. -/
def Redis.put (c : Redis) (key : String) (v : Option RVal) : Redis :=
  { c with db := fun k => if k = key then v else c.db k }

/-- An error reply of the server: `Do` returns it as reply and as error. -/
def errorReply (msg : String) (c : Redis) : DoResult :=
  { reply := Reply.error msg, err := some msg, conn := c }

/-- A successful reply. -/
def okReply (r : Reply) (c : Redis) : DoResult :=
  { reply := r, err := none, conn := c }

/-- The server reading a stored string as a 64-bit integer: an optional minus
sign and digits without a leading zero, inside the range. -/
def serverInt (s : String) : Option Int :=
  match s.data with
  | [] => none
  | c :: cs =>
    if c = '0' then (if cs = [] then some 0 else none)
    else if c = '-' then
      match cs with
      | [] => none
      | d :: _ =>
        if d = '0' then none
        else
          match digitsVal cs 0 with
          | none => none
          | some n => if n ≤ int64Bound then some (-(n : Int)) else none
    else
      match digitsVal (c :: cs) 0 with
      | none => none
      | some n => if n < int64Bound then some (n : Int) else none

/-- Model of `conn.Do(cmd, args...)` against a Redis server.  With the
connection down every command returns a nil reply and an error; a command on
a key that holds a value of another type is answered by an error reply, and
so are `INCR` and `DECR` on a text that is no integer or at the end of the
64-bit range. -/
def Do (c : Redis) (cmd : Cmd) : DoResult :=
  let c1 : Redis := { c with sent := c.sent ++ [cmd] }
  if c.up = false then { reply := Reply.nil, err := some "connection failed", conn := c1 }
  else
    match cmd with
    | Cmd.RPUSH key val =>
      match c.db key with
      | none => okReply (Reply.int 1) (c1.put key (some (RVal.list [val])))
      | some (RVal.list xs) =>
        okReply (Reply.int (xs.length + 1)) (c1.put key (some (RVal.list (xs ++ [val]))))
      | some _ => errorReply "WRONGTYPE" c1
    | Cmd.LPOP key =>
      match c.db key with
      | none => okReply Reply.nil c1
      | some (RVal.list []) => okReply Reply.nil c1
      | some (RVal.list (x :: xs)) =>
        okReply (Reply.bulk x) (c1.put key (if xs = [] then none else some (RVal.list xs)))
      | some _ => errorReply "WRONGTYPE" c1
    | Cmd.LLEN key =>
      match c.db key with
      | none => okReply (Reply.int 0) c1
      | some (RVal.list xs) => okReply (Reply.int xs.length) c1
      | some _ => errorReply "WRONGTYPE" c1
    | Cmd.SADD key member =>
      match c.db key with
      | none => okReply (Reply.int 1) (c1.put key (some (RVal.set [member])))
      | some (RVal.set xs) =>
        if member ∈ xs then okReply (Reply.int 0) c1
        else okReply (Reply.int 1) (c1.put key (some (RVal.set (xs ++ [member]))))
      | some _ => errorReply "WRONGTYPE" c1
    | Cmd.SMEMBERS key =>
      match c.db key with
      | none => okReply (Reply.array []) c1
      | some (RVal.set xs) => okReply (Reply.array (xs.map Reply.bulk)) c1
      | some _ => errorReply "WRONGTYPE" c1
    | Cmd.GET key =>
      match c.db key with
      | none => okReply Reply.nil c1
      | some (RVal.str v) => okReply (Reply.bulk v) c1
      | some _ => errorReply "WRONGTYPE" c1
    | Cmd.INCR key =>
      match c.db key with
      | none => okReply (Reply.int 1) (c1.put key (some (RVal.str (intText 1))))
      | some (RVal.str v) =>
        match serverInt v with
        | none => errorReply "ERR value is not an integer or out of range" c1
        | some n =>
          if n = (int64Bound : Int) - 1 then errorReply "ERR increment or decrement would overflow" c1
          else okReply (Reply.int (n + 1)) (c1.put key (some (RVal.str (intText (n + 1)))))
      | some _ => errorReply "WRONGTYPE" c1
    | Cmd.DECR key =>
      match c.db key with
      | none => okReply (Reply.int (-1)) (c1.put key (some (RVal.str (intText (-1)))))
      | some (RVal.str v) =>
        match serverInt v with
        | none => errorReply "ERR value is not an integer or out of range" c1
        | some n =>
          if n = -(int64Bound : Int) then errorReply "ERR increment or decrement would overflow" c1
          else okReply (Reply.int (n - 1)) (c1.put key (some (RVal.str (intText (n - 1)))))
      | some _ => errorReply "WRONGTYPE" c1
    | Cmd.DEL key =>
      match c.db key with
      | none => okReply (Reply.int 0) c1
      | some _ => okReply (Reply.int 1) (c1.put key none)

/-- Model of `redis.Bytes(reply, err)`: the bytes of a bulk reply. -/
def redisBytes (reply : Reply) (err : Option String) : Option String :=
  match err, reply with
  | none, Reply.bulk b => some b
  | _, _ => none

/-- The test `reply == nil` on an `interface{}`. -/
def Reply.isNil : Reply → Bool
  | Reply.nil => true
  | _ => false

/-! ## `reflections.HasField` and `reflections.GetField` -/

/-- The value of the field `name` of a struct. -/
def fieldByName (name : String) : List (String × GoVal) → Option GoVal
  | [] => none
  | (k, v) :: rest => if k = name then some v else fieldByName name rest

/-- Model of `reflections.HasField(obj, name)`: whether `obj` is a struct with
an exported field `name`, and whether an error is returned (`obj` is no
struct). -/
def HasField (obj : GoVal) (name : String) : Bool × Bool :=
  match obj with
  | GoVal.struct fields =>
    match fieldByName name fields with
    | none => (false, false)
    | some _ => (isExported name, false)
  | _ => (false, true)

/-- Model of `reflections.GetField(obj, name)`: the value of the field, or
`none` with an error. -/
def GetField (obj : GoVal) (name : String) : Option GoVal :=
  match obj with
  | GoVal.struct fields => fieldByName name fields
  | _ => none

/-! ## The client: `resq.go` -/

/-- The constant `QUEUE_PREFIX`. -/
def QUEUE_PREFIX : String := "resq:queue:%s"

/-- The constant `WATCHED_QUEUES`. -/
def WATCHED_QUEUES : String := "resq:queues"

/-- The constant `WATCHED_WORKERS`. -/
def WATCHED_WORKERS : String := "resq:workers"

/-- The constant `WATCHED_STAT`. -/
def WATCHED_STAT : String := "resq:stat:%s"

/-- The key `fmt.Sprintf(QUEUE_PREFIX, queue)` of the list of a queue. -/
def queueKey (queue : String) : String := ⟨sprintf QUEUE_PREFIX.data queue⟩

/-- The key `fmt.Sprintf(WATCHED_STAT, name)` of a counter. -/
def statKey (name : String) : String := ⟨sprintf WATCHED_STAT.data name⟩

/-- The struct `ResQ` without its pool: the server is passed to every
method. -/
structure ResQ where
  _watched_queues : List String
  Host : String

/-- The constructor `NewResQ`; `redisurl` is the environment variable
`REDISURL`.  `InitPool` never returns nil. -/
def NewResQ (redisurl : String) : ResQ :=
  { _watched_queues := [], Host := redisurl }

/-- The method `Encode`. -/
def Encode (item : GoVal) : String :=
  match Marshal item with
  | none => ""
  | some b => ⟨b⟩

/-- The method `Decode`: the map after `json.Unmarshal`, nil (`none`) when it
fails. -/
def Decode (data : String) : Option JMap :=
  (Unmarshal data).1

/-- The method `watch_queue`: the returned error and the server afterwards. -/
def watch_queue (resq : ResQ) (queue : String) (c : Redis) : Option String × Redis :=
  if queue ∈ resq._watched_queues then (none, c)
  else
    let r := Do c (Cmd.SADD WATCHED_QUEUES queue)
    match r.err with
    | some _ => (some "watch_queue() SADD Error", r.conn)
    | none => (none, r.conn)

/-- The method `Push`: the returned error and the server afterwards. -/
def Push (resq : ResQ) (queue : String) (item : GoVal) (c : Redis) : Option String × Redis :=
  let r := Do c (Cmd.RPUSH (queueKey queue) (Encode item))
  match r.err with
  | some _ => (some "Invalid Redis RPUSH Response", r.conn)
  | none => watch_queue resq queue r.conn

/-- The method `Pop`: the returned map (`none` is nil) and the server
afterwards. -/
def Pop (_resq : ResQ) (queue : String) (c : Redis) : Option JMap × Redis :=
  let r := Do c (Cmd.LPOP (queueKey queue))
  if r.err.isSome ∨ r.reply.isNil then (none, r.conn)
  else
    match redisBytes r.reply r.err with
    | none => (none, r.conn)
    | some data =>
      match Decode data with
      | none => (none, r.conn)
      | some decoded => (some (mapSet "Struct" (Json.str queue) decoded), r.conn)

/-- The method `Size`; the type assertion `size.(int64)` panics on a reply
that is no integer. -/
def Size (_resq : ResQ) (queue : String) (c : Redis) : Except String (Int × Redis) :=
  let r := Do c (Cmd.LLEN (queueKey queue))
  if r.reply.isNil ∨ r.err.isSome then Except.ok (0, r.conn)
  else
    match r.reply with
    | Reply.int n => Except.ok (n, r.conn)
    | _ => Except.error "interface conversion: interface is not int64"

/-- The method `Enqueue`; the type assertion `queue.(string)` panics on a
`Queue` field that is no string. -/
def Enqueue (resq : ResQ) (item : GoVal) (c : Redis) : Except String (Option String × Redis) :=
  let hasQueue := (HasField item "Queue").1
  let hasArgs := (HasField item "Args").1
  if !hasQueue || !hasArgs then Except.ok (some "unable to enqueue job with struct", c)
  else
    match GetField item "Queue" with
    | some (GoVal.str queue) => Except.ok (Push resq queue item c)
    | _ => Except.error "interface conversion: interface is not string"

/-- The loop `for _, q := range data.([]interface{})` of `Queues` and
`Workers`: every element is asserted to be bytes. -/
def bytesOfAll : List Reply → Except String (List String)
  | [] => Except.ok []
  | Reply.bulk b :: rest =>
    match bytesOfAll rest with
    | Except.ok bs => Except.ok (b :: bs)
    | Except.error e => Except.error e
  | _ :: _ => Except.error "interface conversion: interface is not []uint8"

/-- The body shared by `Queues` and `Workers`: `SMEMBERS` on a key, the error
dropped, the reply asserted to be an array. -/
def members (key : String) (c : Redis) : Except String (List String × Redis) :=
  let r := Do c (Cmd.SMEMBERS key)
  match r.reply with
  | Reply.array xs =>
    match bytesOfAll xs with
    | Except.ok names => Except.ok (names, r.conn)
    | Except.error e => Except.error e
  | _ => Except.error "interface conversion: interface is not []interface \x7b\x7d"

/-- The method `Queues`. -/
def Queues (_resq : ResQ) (c : Redis) : Except String (List String × Redis) :=
  members WATCHED_QUEUES c

/-- The method `Workers`. -/
def Workers (_resq : ResQ) (c : Redis) : Except String (List String × Redis) :=
  members WATCHED_WORKERS c

/-- The struct `Stat`. -/
structure Stat where
  Name : String
  Key : String
  Resq : ResQ

/-- The constructor `NewStat`. -/
def NewStat (name : String) (resq : ResQ) : Stat :=
  { Name := name, Key := statKey name, Resq := resq }

/-- The method `Stat.Get`; the type assertion `data.([]byte)` panics on a
reply that is no bulk string. -/
def Stat.Get (stat : Stat) (c : Redis) : Except String (Int × Redis) :=
  let r := Do c (Cmd.GET stat.Key)
  if r.err.isSome ∨ r.reply.isNil then Except.ok (0, r.conn)
  else
    match r.reply with
    | Reply.bulk data => Except.ok ((Atoi data).1, r.conn)
    | _ => Except.error "interface conversion: interface is not []uint8"

/-- The method `Stat.Incr`: the flag and the server afterwards. -/
def Stat.Incr (stat : Stat) (c : Redis) : Int × Redis :=
  let r := Do c (Cmd.INCR stat.Key)
  match r.err with
  | some _ => (0, r.conn)
  | none => (1, r.conn)

/-- The method `Stat.Decr`. -/
def Stat.Decr (stat : Stat) (c : Redis) : Int × Redis :=
  let r := Do c (Cmd.DECR stat.Key)
  match r.err with
  | some _ => (0, r.conn)
  | none => (1, r.conn)

/-- The method `Stat.Clear`. -/
def Stat.Clear (stat : Stat) (c : Redis) : Int × Redis :=
  let r := Do c (Cmd.DEL stat.Key)
  match r.err with
  | some _ => (0, r.conn)
  | none => (1, r.conn)

/-- The loop `pending += resq.Size(q)` of `Info`. -/
def sumSizes (resq : ResQ) : List String → Int → Redis → Except String (Int × Redis)
  | [], pending, c => Except.ok (pending, c)
  | q :: rest, pending, c =>
    match Size resq q c with
    | Except.error e => Except.error e
    | Except.ok (n, c1) => sumSizes resq rest (wrapInt64 (pending + n)) c1

/-- The method `Info`: the entries of the returned map in the order of their
assignment, and the server afterwards. -/
def Info (resq : ResQ) (c : Redis) : Except String (List (String × GoVal) × Redis) :=
  match Queues resq c with
  | Except.error e => Except.error e
  | Except.ok (qs, c1) =>
    match sumSizes resq qs 0 c1 with
    | Except.error e => Except.error e
    | Except.ok (pending, c2) =>
      match (NewStat "processed" resq).Get c2 with
      | Except.error e => Except.error e
      | Except.ok (processed, c3) =>
        match Queues resq c3 with
        | Except.error e => Except.error e
        | Except.ok (qs1, c4) =>
          match Workers resq c4 with
          | Except.error e => Except.error e
          | Except.ok (ws, c5) =>
            match (NewStat "falied" resq).Get c5 with
            | Except.error e => Except.error e
            | Except.ok (failed, c6) =>
              Except.ok ([("pending", GoVal.int pending), ("processed", GoVal.int processed),
                ("queues", GoVal.int qs1.length), ("workers", GoVal.int ws.length),
                ("failed", GoVal.int failed), ("host", GoVal.str resq.Host)], c6)

/-- Reading an entry of the map returned by `Info`. -/
def infoGet (key : String) : List (String × GoVal) → Option GoVal
  | [] => none
  | (k, v) :: rest => if k = key then some v else infoGet key rest

/-! ## Runs of several calls -/

/-- A server that is up, with no key and no command issued yet. -/
def emptyRedis : Redis :=
  { up := true, db := fun _ => none, sent := [] }

/-- Pushing the items of a list to one queue, one `Push` after the other: the
returned errors and the server afterwards. -/
def pushAll (resq : ResQ) (queue : String) : List GoVal → Redis → List (Option String) × Redis
  | [], c => ([], c)
  | item :: rest, c =>
    let r := Push resq queue item c
    let rs := pushAll resq queue rest r.2
    (r.1 :: rs.1, rs.2)

/-- Calling `Pop` a number of times: the server afterwards. -/
def popN (resq : ResQ) (queue : String) : Nat → Redis → Redis
  | 0, c => c
  | n + 1, c => popN resq queue n (Pop resq queue c).2

/-- Calling `Incr` a number of times: the returned flags and the server
afterwards. -/
def incrN (stat : Stat) : Nat → Redis → List Int × Redis
  | 0, c => ([], c)
  | n + 1, c =>
    let r := stat.Incr c
    let rs := incrN stat n r.2
    (r.1 :: rs.1, rs.2)

/-- The number of `SADD` commands in a list of commands. -/
def countSADD : List Cmd → Nat
  | [] => 0
  | Cmd.SADD _ _ :: rest => countSADD rest + 1
  | _ :: rest => countSADD rest

/-! ## Notions used in the statements -/

/-- The key that a command works on. -/
def cmdKey : Cmd → String
  | Cmd.RPUSH key _ => key
  | Cmd.LPOP key => key
  | Cmd.LLEN key => key
  | Cmd.SADD key _ => key
  | Cmd.SMEMBERS key => key
  | Cmd.GET key => key
  | Cmd.INCR key => key
  | Cmd.DECR key => key
  | Cmd.DEL key => key

/-- The list held by a key, empty when the key holds none. -/
def listAt : Option RVal → List String
  | some (RVal.list xs) => xs
  | _ => []

/-- The value stored for a counter that stands at `j`: no key at 0, the
decimal text of `j` otherwise. -/
def counterVal (j : Nat) : Option RVal :=
  if j = 0 then none else some (RVal.str (intText (j : Int)))

/-! ## Lemmas -/

theorem queueKey_eq (q : String) : queueKey q = "resq:queue:" ++ q := by
  apply String.ext
  simp [queueKey, QUEUE_PREFIX, sprintf]

theorem statKey_eq (x : String) : statKey x = "resq:stat:" ++ x := by
  apply String.ext
  simp [statKey, WATCHED_STAT, sprintf]

theorem queueKey_data (q : String) : (queueKey q).data = "resq:queue:".data ++ q.data := by
  rw [queueKey_eq]; simp

theorem queueKey_inj (q q1 : String) (h : queueKey q = queueKey q1) : q = q1 := by
  have h1 := congrArg String.data h
  rw [queueKey_data, queueKey_data] at h1
  exact String.ext (List.append_cancel_left h1)

theorem queueKey_ne_queues (q : String) : queueKey q ≠ WATCHED_QUEUES := by
  intro h
  have h1 := congrArg String.data h
  rw [queueKey_data] at h1
  simp [WATCHED_QUEUES] at h1

theorem queueKey_ne_workers (q : String) : queueKey q ≠ WATCHED_WORKERS := by
  intro h
  have h1 := congrArg String.data h
  rw [queueKey_data] at h1
  simp [WATCHED_WORKERS] at h1

theorem queueKey_ne_statKey (q x : String) : queueKey q ≠ statKey x := by
  intro h
  have h1 := congrArg String.data h
  rw [queueKey_data, statKey_eq] at h1
  simp at h1

theorem statKey_ne_queues (x : String) : statKey x ≠ WATCHED_QUEUES := by
  intro h
  have h1 := congrArg String.data h
  rw [statKey_eq] at h1
  simp [WATCHED_QUEUES] at h1

theorem Do_up (c : Redis) (cmd : Cmd) : (Do c cmd).conn.up = c.up := by
  unfold Do
  split
  · rfl
  · cases cmd <;> simp only [] <;> split <;> (try split) <;> (try split) <;> rfl

theorem Do_sent (c : Redis) (cmd : Cmd) : (Do c cmd).conn.sent = c.sent ++ [cmd] := by
  unfold Do
  split
  · rfl
  · cases cmd <;> simp only [] <;> split <;> (try split) <;> (try split) <;> rfl

theorem Do_db_of_ne (c : Redis) (cmd : Cmd) (k : String) (h : k ≠ cmdKey cmd) :
    (Do c cmd).conn.db k = c.db k := by
  unfold Do
  split
  · rfl
  · cases cmd <;> simp only [cmdKey] at h <;> simp only [] <;> split <;> (try split) <;>
      (try split) <;> simp [okReply, errorReply, Redis.put, h]

theorem Do_LLEN_congr (c1 c2 : Redis) (k : String) (hup : c1.up = c2.up)
    (hdb : c1.db k = c2.db k) :
    (Do c1 (Cmd.LLEN k)).reply = (Do c2 (Cmd.LLEN k)).reply ∧
    (Do c1 (Cmd.LLEN k)).err = (Do c2 (Cmd.LLEN k)).err := by
  simp only [Do, hup, hdb]
  split
  · exact ⟨rfl, rfl⟩
  · split <;> exact ⟨rfl, rfl⟩

theorem Do_GET_congr (c1 c2 : Redis) (k : String) (hup : c1.up = c2.up)
    (hdb : c1.db k = c2.db k) :
    (Do c1 (Cmd.GET k)).reply = (Do c2 (Cmd.GET k)).reply ∧
    (Do c1 (Cmd.GET k)).err = (Do c2 (Cmd.GET k)).err := by
  simp only [Do, hup, hdb]
  split
  · exact ⟨rfl, rfl⟩
  · split <;> exact ⟨rfl, rfl⟩

theorem Size_congr (resq : ResQ) (q : String) (c1 c2 : Redis) (hup : c1.up = c2.up)
    (hdb : c1.db (queueKey q) = c2.db (queueKey q)) :
    (Size resq q c1).map Prod.fst = (Size resq q c2).map Prod.fst := by
  obtain ⟨hr, he⟩ := Do_LLEN_congr c1 c2 (queueKey q) hup hdb
  simp only [Size, hr, he]
  split
  · rfl
  · split <;> rfl

theorem Get_congr (stat : Stat) (c1 c2 : Redis) (hup : c1.up = c2.up)
    (hdb : c1.db stat.Key = c2.db stat.Key) :
    (stat.Get c1).map Prod.fst = (stat.Get c2).map Prod.fst := by
  obtain ⟨hr, he⟩ := Do_GET_congr c1 c2 stat.Key hup hdb
  simp only [Stat.Get, hr, he]
  split
  · rfl
  · split <;> rfl

theorem watch_queue_up (resq : ResQ) (q : String) (c : Redis) :
    (watch_queue resq q c).2.up = c.up := by
  unfold watch_queue
  split
  · rfl
  · simp only []
    split <;> exact Do_up _ _

theorem watch_queue_db (resq : ResQ) (q : String) (c : Redis) (k : String)
    (h : k ≠ WATCHED_QUEUES) : (watch_queue resq q c).2.db k = c.db k := by
  unfold watch_queue
  split
  · rfl
  · simp only []
    split <;> exact Do_db_of_ne _ _ _ h

theorem Push_up (resq : ResQ) (q : String) (item : GoVal) (c : Redis) :
    (Push resq q item c).2.up = c.up := by
  unfold Push
  simp only []
  split
  · exact Do_up _ _
  · rw [watch_queue_up]; exact Do_up _ _

theorem Push_db (resq : ResQ) (q : String) (item : GoVal) (c : Redis) (k : String)
    (h1 : k ≠ queueKey q) (h2 : k ≠ WATCHED_QUEUES) :
    (Push resq q item c).2.db k = c.db k := by
  unfold Push
  simp only []
  split
  · exact Do_db_of_ne _ _ _ h1
  · rw [watch_queue_db _ _ _ _ h2]; exact Do_db_of_ne _ _ _ h1

theorem Pop_up (resq : ResQ) (q : String) (c : Redis) : (Pop resq q c).2.up = c.up := by
  unfold Pop
  simp only []
  split
  · exact Do_up _ _
  · split
    · exact Do_up _ _
    · split <;> exact Do_up _ _

theorem Pop_db (resq : ResQ) (q : String) (c : Redis) (k : String) (h : k ≠ queueKey q) :
    (Pop resq q c).2.db k = c.db k := by
  unfold Pop
  simp only []
  split
  · exact Do_db_of_ne _ _ _ h
  · split
    · exact Do_db_of_ne _ _ _ h
    · split <;> exact Do_db_of_ne _ _ _ h

theorem Do_RPUSH_ok (c : Redis) (k v : String) (h : (Do c (Cmd.RPUSH k v)).err = none) :
    c.up = true ∧ (Do c (Cmd.RPUSH k v)).conn.db k = some (RVal.list (listAt (c.db k) ++ [v])) := by
  cases hup : c.up with
  | false => simp [Do, hup] at h
  | true =>
    refine ⟨rfl, ?_⟩
    cases hk : c.db k with
    | none => simp [Do, hup, hk, okReply, Redis.put, listAt]
    | some w =>
      cases w with
      | list xs => simp [Do, hup, hk, okReply, Redis.put, listAt]
      | str s => simp [Do, hup, hk, errorReply] at h
      | set xs => simp [Do, hup, hk, errorReply] at h

theorem Do_RPUSH_err (c : Redis) (k v : String) (hup : c.up = true)
    (hk : c.db k = none ∨ ∃ xs, c.db k = some (RVal.list xs)) :
    (Do c (Cmd.RPUSH k v)).err = none := by
  unfold Do
  rcases hk with hk | ⟨xs, hk⟩ <;> simp [hup, hk, okReply]

theorem Push_ok (resq : ResQ) (q : String) (item : GoVal) (c : Redis)
    (h : (Push resq q item c).1 = none) :
    c.up = true ∧ (Push resq q item c).2.db (queueKey q)
      = some (RVal.list (listAt (c.db (queueKey q)) ++ [Encode item])) := by
  unfold Push at h ⊢
  simp only [] at h ⊢
  cases he : (Do c (Cmd.RPUSH (queueKey q) (Encode item))).err with
  | some e => simp [he] at h
  | none =>
    simp only [he]
    rw [watch_queue_db _ _ _ _ (queueKey_ne_queues q)]
    exact Do_RPUSH_ok c _ _ he

theorem Pop_head (resq : ResQ) (q : String) (c : Redis) (x : String) (xs : List String)
    (hup : c.up = true) (hk : c.db (queueKey q) = some (RVal.list (x :: xs))) :
    (Pop resq q c).1 = (Decode x).map (mapSet "Struct" (Json.str q)) ∧
    (Pop resq q c).2.db (queueKey q) = (if xs = [] then none else some (RVal.list xs)) := by
  have hd : Do c (Cmd.LPOP (queueKey q)) = okReply (Reply.bulk x)
      (({ c with sent := c.sent ++ [Cmd.LPOP (queueKey q)] } : Redis).put (queueKey q)
        (if xs = [] then none else some (RVal.list xs))) := by
    simp [Do, hup, hk]
  unfold Pop
  simp only [hd, okReply, Reply.isNil, redisBytes, Option.isSome]
  cases hdec : Decode x <;> simp [Redis.put]

theorem mapGet_mapSet_self (k : String) (v : Json) (m : JMap) :
    mapGet k (mapSet k v m) = some v := by
  induction m with
  | nil => simp [mapSet, mapGet]
  | cons e rest ih =>
    obtain ⟨k1, v1⟩ := e
    by_cases h : k1 = k <;> simp [mapSet, mapGet, h, ih]

theorem mapGet_mapSet_of_ne (k k2 : String) (v : Json) (m : JMap) (hne : k2 ≠ k) :
    mapGet k2 (mapSet k v m) = mapGet k2 m := by
  induction m with
  | nil => simp [mapSet, mapGet, Ne.symm hne]
  | cons e rest ih =>
    obtain ⟨k1, v1⟩ := e
    by_cases h : k1 = k
    · subst h
      simp [mapSet, mapGet, Ne.symm hne]
    · by_cases h2 : k1 = k2
      · subst h2
        simp [mapSet, mapGet, h]
      · simp [mapSet, mapGet, h, h2, ih]

theorem watch_queue_sent (resq : ResQ) (q : String) (c : Redis) :
    (watch_queue resq q c).2.sent
      = c.sent ++ (if q ∈ resq._watched_queues then [] else [Cmd.SADD WATCHED_QUEUES q]) := by
  unfold watch_queue
  split
  · simp
  · simp only []
    split <;> simp [Do_sent]

theorem Do_SADD_err (c : Redis) (k v : String) (hup : c.up = true)
    (hk : c.db k = none ∨ ∃ xs, c.db k = some (RVal.set xs)) :
    (Do c (Cmd.SADD k v)).err = none := by
  unfold Do
  rcases hk with hk | ⟨xs, hk⟩
  · simp [hup, hk, okReply]
  · by_cases hm : v ∈ xs <;> simp [hup, hk, okReply, hm]

theorem fieldByName_isSome_HasField (fields : List (String × GoVal)) (name : String) (v : GoVal)
    (h : fieldByName name fields = some v) (he : isExported name = true) :
    (HasField (GoVal.struct fields) name).1 = true := by
  simp [HasField, h, he]

theorem Size_of_list (resq : ResQ) (q : String) (c : Redis) (xs : List String)
    (hup : c.up = true) (hk : c.db (queueKey q) = some (RVal.list xs)) :
    Size resq q c = Except.ok ((xs.length : Int), (Do c (Cmd.LLEN (queueKey q))).conn) := by
  have hd : Do c (Cmd.LLEN (queueKey q)) = okReply (Reply.int xs.length)
      { c with sent := c.sent ++ [Cmd.LLEN (queueKey q)] } := by
    simp [Do, hup, hk]
  unfold Size
  simp [hd, okReply, Reply.isNil]

theorem Enqueue_of_fields (resq : ResQ) (item : GoVal) (c : Redis) (q : String)
    (h1 : (HasField item "Queue").1 = true) (h2 : (HasField item "Args").1 = true)
    (h3 : GetField item "Queue" = some (GoVal.str q)) :
    Enqueue resq item c = Except.ok (Push resq q item c) := by
  unfold Enqueue
  simp [h1, h2, h3]

theorem Do_LLEN_db (c : Redis) (k : String) : (Do c (Cmd.LLEN k)).conn.db = c.db := by
  unfold Do
  split
  · rfl
  · simp only []
    split <;> rfl

theorem Push_no_error (resq : ResQ) (q : String) (item : GoVal) (c : Redis)
    (hup : c.up = true)
    (hk : c.db (queueKey q) = none ∨ ∃ xs, c.db (queueKey q) = some (RVal.list xs))
    (hw : c.db WATCHED_QUEUES = none ∨ ∃ ys, c.db WATCHED_QUEUES = some (RVal.set ys)) :
    (Push resq q item c).1 = none := by
  have he := Do_RPUSH_err c (queueKey q) (Encode item) hup hk
  unfold Push
  simp only [he]
  unfold watch_queue
  split
  · rfl
  · have hs : (Do (Do c (Cmd.RPUSH (queueKey q) (Encode item))).conn
        (Cmd.SADD WATCHED_QUEUES q)).err = none := by
      apply Do_SADD_err
      · rw [Do_up]; exact hup
      · rw [Do_db_of_ne _ _ _ (show WATCHED_QUEUES ≠ queueKey q from
          fun h => queueKey_ne_queues q h.symm)]; exact hw
    simp only [hs]

theorem pushAll_up (resq : ResQ) (q : String) (items : List GoVal) (c : Redis) :
    (pushAll resq q items c).2.up = c.up := by
  induction items generalizing c with
  | nil => rfl
  | cons item rest ih =>
    simp only [pushAll]
    rw [ih, Push_up]

theorem pushAll_ok (resq : ResQ) (q : String) (items : List GoVal) (c : Redis)
    (h : ∀ e ∈ (pushAll resq q items c).1, e = none) (hne : items ≠ []) :
    c.up = true ∧ (pushAll resq q items c).2.db (queueKey q)
      = some (RVal.list (listAt (c.db (queueKey q)) ++ items.map Encode)) := by
  induction items generalizing c with
  | nil => exact absurd rfl hne
  | cons item rest ih =>
    simp only [pushAll, List.mem_cons, forall_eq_or_imp] at h
    obtain ⟨hup, hdb⟩ := Push_ok resq q item c h.1
    refine ⟨hup, ?_⟩
    simp only [pushAll]
    cases rest with
    | nil => simpa [pushAll] using hdb
    | cons item2 rest2 =>
      obtain ⟨_, hdb2⟩ := ih (Push resq q item c).2 h.2 (by simp)
      rw [hdb2, hdb]
      simp [listAt]

theorem popN_list (resq : ResQ) (q : String) (M : Nat) (c : Redis) (xs : List String)
    (hup : c.up = true) (hk : c.db (queueKey q) = some (RVal.list xs)) (hM : M < xs.length) :
    (popN resq q M c).up = true ∧
    (popN resq q M c).db (queueKey q) = some (RVal.list (xs.drop M)) := by
  induction M generalizing c xs with
  | zero => exact ⟨hup, by simpa [popN] using hk⟩
  | succ M ih =>
    cases xs with
    | nil => simp at hM
    | cons x rest =>
      have hlen : M < rest.length := by simpa using hM
      have hrest : rest ≠ [] := by
        intro h0; rw [h0] at hlen; simp at hlen
      have hp := (Pop_head resq q c x rest hup hk).2
      rw [if_neg hrest] at hp
      have hup1 : (Pop resq q c).2.up = true := by rw [Pop_up]; exact hup
      simpa [popN] using ih (Pop resq q c).2 rest hup1 hp hlen

theorem digitVal_digitChar (d : Nat) (h : d < 10) : digitVal (Nat.digitChar d) = some d := by
  interval_cases d <;> rfl

theorem digitChar_head (d : Nat) (h : d < 10) :
    Nat.digitChar d ≠ '-' ∧ Nat.digitChar d ≠ '+' ∧ (0 < d → Nat.digitChar d ≠ '0') := by
  interval_cases d <;> decide

theorem digitsVal_append (xs ys : List Char) (acc : Nat) :
    digitsVal (xs ++ ys) acc = (digitsVal xs acc).bind (digitsVal ys) := by
  induction xs generalizing acc with
  | nil => rfl
  | cons x rest ih =>
    simp only [List.cons_append, digitsVal]
    cases digitVal x with
    | none => rfl
    | some d => exact ih _

theorem toDigitsCore_spec (fuel n : Nat) (ds : List Char) (h : n < fuel) :
    ∃ ch rest, Nat.toDigitsCore 10 fuel n ds = (ch :: rest) ++ ds ∧
      digitsVal (ch :: rest) 0 = some n ∧
      ch ≠ '-' ∧ ch ≠ '+' ∧ (0 < n → ch ≠ '0') := by
  induction fuel generalizing n ds with
  | zero => omega
  | succ fuel ih =>
    unfold Nat.toDigitsCore
    simp only []
    by_cases h0 : n / 10 = 0
    · have hn : n < 10 := by omega
      have hmod : n % 10 = n := Nat.mod_eq_of_lt hn
      rw [if_pos h0, hmod]
      obtain ⟨h1, h2, h3⟩ := digitChar_head n hn
      refine ⟨Nat.digitChar n, [], rfl, ?_, h1, h2, h3⟩
      simp [digitsVal, digitVal_digitChar n hn]
    · rw [if_neg h0]
      have hlt : n / 10 < fuel := by omega
      obtain ⟨ch, rest, he, hv, h1, h2, h3⟩ := ih (n / 10) (Nat.digitChar (n % 10) :: ds) hlt
      refine ⟨ch, rest ++ [Nat.digitChar (n % 10)], ?_, ?_, h1, h2, fun _ => h3 (by omega)⟩
      · rw [he]; simp
      · rw [← List.cons_append, digitsVal_append, hv]
        simp only [Option.some_bind, digitsVal, digitVal_digitChar (n % 10) (Nat.mod_lt _ (by omega))]
        congr 1
        omega

theorem toDigits_spec (n : Nat) :
    ∃ ch rest, Nat.toDigits 10 n = ch :: rest ∧ digitsVal (ch :: rest) 0 = some n ∧
      ch ≠ '-' ∧ ch ≠ '+' ∧ (0 < n → ch ≠ '0') := by
  obtain ⟨ch, rest, he, hv, h⟩ := toDigitsCore_spec (n + 1) n [] (by omega)
  exact ⟨ch, rest, by simpa [Nat.toDigits] using he, hv, h⟩

theorem Atoi_intText (n : Nat) (h : n < int64Bound) :
    Atoi (intText (n : Int)) = ((n : Int), false) := by
  obtain ⟨ch, rest, he, hv, h1, h2, _⟩ := toDigits_spec n
  have hd : (intText (n : Int)).data = ch :: rest := he
  unfold Atoi
  simp only [hd, h1, h2, or_self, if_false, hv, h, if_true]

theorem serverInt_intText (n : Nat) (h0 : 0 < n) (h : n < int64Bound) :
    serverInt (intText (n : Int)) = some (n : Int) := by
  obtain ⟨ch, rest, he, hv, h1, _, h3⟩ := toDigits_spec n
  have hd : (intText (n : Int)).data = ch :: rest := he
  unfold serverInt
  simp only [hd, h1, h3 h0, if_false, hv, h, if_true]

theorem Do_INCR_ok (c : Redis) (key : String) (j : Nat) (hup : c.up = true)
    (hc : c.db key = counterVal j) (hj : j + 1 < int64Bound) :
    (Do c (Cmd.INCR key)).err = none ∧ (Do c (Cmd.INCR key)).conn.up = true ∧
    (Do c (Cmd.INCR key)).conn.db key = counterVal (j + 1) := by
  refine ⟨?_, by rw [Do_up]; exact hup, ?_⟩
  · by_cases h0 : j = 0
    · subst h0
      simp [Do, hup, show c.db key = none from hc, okReply]
    · have hs := serverInt_intText j (by omega) (by omega)
      have hne : (j : Int) ≠ (int64Bound : Int) - 1 := by omega
      rw [counterVal, if_neg h0] at hc
      simp [Do, hup, hc, hs, hne, okReply]
  · by_cases h0 : j = 0
    · subst h0
      simp [Do, hup, show c.db key = none from hc, okReply, Redis.put, counterVal]
    · have hs := serverInt_intText j (by omega) (by omega)
      have hne : (j : Int) ≠ (int64Bound : Int) - 1 := by omega
      rw [counterVal, if_neg h0] at hc
      simp [Do, hup, hc, hs, hne, okReply, Redis.put, counterVal]

theorem Do_INCR_overflow (c : Redis) (key : String) (hup : c.up = true)
    (hc : c.db key = counterVal (int64Bound - 1)) :
    (Do c (Cmd.INCR key)).err ≠ none := by
  have hs := serverInt_intText (int64Bound - 1) (by decide) (by decide)
  have hcast : (((int64Bound - 1 : Nat)) : Int) = (int64Bound : Int) - 1 := by decide
  rw [counterVal, if_neg (by decide)] at hc
  rw [hcast] at hs hc
  simp [Do, hup, hc, hs, errorReply]

theorem incrN_of_lt (stat : Stat) (k j : Nat) (c : Redis) (hup : c.up = true)
    (hc : c.db stat.Key = counterVal j) (hk : j + k < int64Bound) :
    (incrN stat k c).1 = List.replicate k 1 ∧ (incrN stat k c).2.up = true ∧
    (incrN stat k c).2.db stat.Key = counterVal (j + k) := by
  induction k generalizing j c with
  | zero => exact ⟨rfl, hup, hc⟩
  | succ k ih =>
    obtain ⟨he, hup1, hc1⟩ := Do_INCR_ok c stat.Key j hup hc (by omega)
    have hI : stat.Incr c = (1, (Do c (Cmd.INCR stat.Key)).conn) := by
      unfold Stat.Incr
      simp only [he]
    obtain ⟨h1, h2, h3⟩ := ih (j + 1) (Do c (Cmd.INCR stat.Key)).conn hup1 hc1 (by omega)
    simp only [incrN, hI]
    refine ⟨by rw [h1]; rfl, h2, ?_⟩
    rw [h3]
    congr 1
    omega

theorem Get_counter (stat : Stat) (k : Nat) (c : Redis) (hup : k ≠ 0 → c.up = true)
    (hc : c.db stat.Key = counterVal k) (hk : k < int64Bound) :
    stat.Get c = Except.ok ((k : Int), (Do c (Cmd.GET stat.Key)).conn) := by
  by_cases h0 : k = 0
  · subst h0
    cases hu : c.up with
    | false => simp [Stat.Get, Do, hu]
    | true => simp [Stat.Get, Do, hu, show c.db stat.Key = none from hc, okReply, Reply.isNil]
  · rw [counterVal, if_neg h0] at hc
    simp [Stat.Get, Do, hup h0, hc, okReply, Reply.isNil, Atoi_intText k hk]

/-! ## The claims -/

/-- C1 (amended): if `Push(q, j)` succeeds on a store in which the list
`resq:queue:q` is empty, the next `Pop(q)` returns `Decode(Encode(j))` with the
entry `"Struct"` set to `q`: absent when the encoding of `j` does not decode to
a mapping, and otherwise a mapping `m` with `m["Struct"] = q` that agrees with
the decoded mapping on every key other than `"Struct"`. -/
theorem pop_after_push (resq : ResQ) (q : String) (j : GoVal) (c : Redis)
    (hempty : c.db (queueKey q) = none ∨ c.db (queueKey q) = some (RVal.list []))
    (hpush : (Push resq q j c).1 = none) :
    (Pop resq q (Push resq q j c).2).1
      = (Decode (Encode j)).map (mapSet "Struct" (Json.str q)) ∧
    ∀ m, (Pop resq q (Push resq q j c).2).1 = some m →
      mapGet "Struct" m = some (Json.str q) ∧
      ∃ d, Decode (Encode j) = some d ∧ ∀ k, k ≠ "Struct" → mapGet k m = mapGet k d := by
  obtain ⟨hup, hdb⟩ := Push_ok resq q j c hpush
  have hl : listAt (c.db (queueKey q)) = [] := by
    rcases hempty with h | h <;> rw [h] <;> rfl
  rw [hl, List.nil_append] at hdb
  have hup2 : (Push resq q j c).2.up = true := by rw [Push_up]; exact hup
  have hpop := (Pop_head resq q _ (Encode j) [] hup2 hdb).1
  refine ⟨hpop, ?_⟩
  intro m hm
  rw [hpop] at hm
  cases hd : Decode (Encode j) with
  | none => simp [hd] at hm
  | some d =>
    simp only [hd, Option.map_some', Option.some.injEq] at hm
    subst hm
    exact ⟨mapGet_mapSet_self _ _ _, d, rfl, fun k hk => mapGet_mapSet_of_ne _ _ _ _ hk⟩

/-- C1 at the job `struct { A int }{1}` pushed to queue `q` of the empty
store: `Pop` returns the map with the entries `A` and `Struct`. -/
theorem pop_after_push_witness :
    (Push (NewResQ "") "q" (GoVal.struct [("A", GoVal.int 1)]) emptyRedis).1 = none ∧
    (Pop (NewResQ "") "q" (Push (NewResQ "") "q" (GoVal.struct [("A", GoVal.int 1)]) emptyRedis).2).1
      = some [("A", Json.num "1"), ("Struct", Json.str "q")] :=
  ⟨rfl, (pop_after_push (NewResQ "") "q" (GoVal.struct [("A", GoVal.int 1)]) emptyRedis
    (Or.inl rfl) rfl).1.trans rfl⟩

/-- C1 as stated fails: the job `5`, whose encoding is no JSON object, is
pushed with success to the empty queue `q` and `Pop` returns the nil map; and
for the job `struct { Struct string }{"x"}` the popped map without its
`"Struct"` entry is empty, while the decoded encoding holds `"Struct": "x"`. -/
theorem non_object_job_pops_absent :
    emptyRedis.db (queueKey "q") = none ∧
    (Push (NewResQ "") "q" (GoVal.int 5) emptyRedis).1 = none ∧
    (Pop (NewResQ "") "q" (Push (NewResQ "") "q" (GoVal.int 5) emptyRedis).2).1 = none ∧
    (Push (NewResQ "") "q" (GoVal.struct [("Struct", GoVal.str "x")]) emptyRedis).1 = none ∧
    Decode (Encode (GoVal.struct [("Struct", GoVal.str "x")])) = some [("Struct", Json.str "x")] ∧
    ((Pop (NewResQ "") "q"
      (Push (NewResQ "") "q" (GoVal.struct [("Struct", GoVal.str "x")]) emptyRedis).2).1).map
        (mapDelete "Struct") = some [] :=
  ⟨rfl, rfl, rfl, rfl, rfl, rfl⟩

/-- C2 (amended): for an item whose `Encode` result is the empty string,
`Push(q, item)` does not abort: its first store command is `RPUSH resq:queue:q`
with the empty payload; when the server is reachable and the key is absent or
holds a list, the empty payload is appended to the tail of that list, and when
the registry key is absent or holds a set as well, `Push` returns no error. -/
theorem push_failed_encoding (resq : ResQ) (q : String) (item : GoVal) (c : Redis)
    (henc : Encode item = "") :
    (∃ rest, (Push resq q item c).2.sent = c.sent ++ Cmd.RPUSH (queueKey q) "" :: rest) ∧
    (c.up = true →
      (c.db (queueKey q) = none ∨ ∃ xs, c.db (queueKey q) = some (RVal.list xs)) →
      (Push resq q item c).2.db (queueKey q)
        = some (RVal.list (listAt (c.db (queueKey q)) ++ [""])) ∧
      ((c.db WATCHED_QUEUES = none ∨ ∃ ys, c.db WATCHED_QUEUES = some (RVal.set ys)) →
        (Push resq q item c).1 = none)) := by
  constructor
  · unfold Push
    simp only [henc]
    split
    · exact ⟨[], by simp [Do_sent]⟩
    · exact ⟨_, by rw [watch_queue_sent, Do_sent, List.append_assoc]; rfl⟩
  · intro hup hk
    have he := Do_RPUSH_err c (queueKey q) "" hup hk
    have hdb := (Do_RPUSH_ok c (queueKey q) "" he).2
    have hP : Push resq q item c = watch_queue resq q (Do c (Cmd.RPUSH (queueKey q) "")).conn := by
      unfold Push
      simp only [henc, he]
    refine ⟨by rw [hP, watch_queue_db _ _ _ _ (queueKey_ne_queues q)]; exact hdb, ?_⟩
    intro hw
    exact Push_no_error resq q item c hup hk hw

/-- C2 (amended) at a channel value, which `json.Marshal` refuses, pushed to
queue `q` of the empty store. -/
theorem push_failed_encoding_witness :
    Encode GoVal.chan = "" ∧
    (Push (NewResQ "") "q" GoVal.chan emptyRedis).2.db (queueKey "q")
      = some (RVal.list ([] ++ [""])) ∧
    (Push (NewResQ "") "q" GoVal.chan emptyRedis).1 = none :=
  ⟨rfl, ((push_failed_encoding (NewResQ "") "q" GoVal.chan emptyRedis rfl).2 rfl (Or.inl rfl)).1,
    ((push_failed_encoding (NewResQ "") "q" GoVal.chan emptyRedis rfl).2 rfl (Or.inl rfl)).2
      (Or.inl rfl)⟩

/-- C2 as stated fails: a channel value encodes to the empty string, and
`Push` of it to queue `q` of the empty store returns no error, issues `RPUSH`
and `SADD`, and leaves the list `resq:queue:q` holding the empty payload. -/
theorem failed_encoding_is_appended :
    Encode GoVal.chan = "" ∧
    (Push (NewResQ "") "q" GoVal.chan emptyRedis).1 = none ∧
    (Push (NewResQ "") "q" GoVal.chan emptyRedis).2.sent
      = [Cmd.RPUSH "resq:queue:q" "", Cmd.SADD "resq:queues" "q"] ∧
    (Push (NewResQ "") "q" GoVal.chan emptyRedis).2.db "resq:queue:q" = some (RVal.list [""]) ∧
    emptyRedis.db "resq:queue:q" = none :=
  ⟨rfl, rfl, rfl, rfl, rfl⟩

/-- C3 fails on the code: on a client made by `NewResQ` the first
`watch_queue(q)` issues one `SADD resq:queues q`, and the second call on the
same client issues the same `SADD` again, whatever the store; on the empty
store the first call succeeds and the second adds one to the count of `SADD`
commands.  No method adds a name to `_watched_queues`. -/
theorem watch_queue_second_call_issues_sadd (host q : String) (c : Redis) :
    (watch_queue (NewResQ host) q c).2.sent = c.sent ++ [Cmd.SADD WATCHED_QUEUES q] ∧
    (watch_queue (NewResQ host) q (watch_queue (NewResQ host) q c).2).2.sent
      = (watch_queue (NewResQ host) q c).2.sent ++ [Cmd.SADD WATCHED_QUEUES q] ∧
    (watch_queue (NewResQ "") "emails" emptyRedis).1 = none ∧
    countSADD
        (watch_queue (NewResQ "") "emails" (watch_queue (NewResQ "") "emails" emptyRedis).2).2.sent
      = countSADD (watch_queue (NewResQ "") "emails" emptyRedis).2.sent + 1 := by
  refine ⟨?_, ?_, rfl, rfl⟩ <;> simp [watch_queue_sent, NewResQ]

/-- C4 (amended): a job value without a `Queue` field or without an `Args`
field makes `Enqueue` return an error and leaves the server as it was, no
command issued; a job value with both fields, whose `Queue` field holds the
string `q`, makes `Enqueue` return what `Push(q, job)` returns. -/
theorem enqueue_checks_fields (resq : ResQ) (item : GoVal) (c : Redis) :
    (((HasField item "Queue").1 = false ∨ (HasField item "Args").1 = false) →
      Enqueue resq item c = Except.ok (some "unable to enqueue job with struct", c)) ∧
    (∀ q, (HasField item "Queue").1 = true → (HasField item "Args").1 = true →
      GetField item "Queue" = some (GoVal.str q) →
      Enqueue resq item c = Except.ok (Push resq q item c)) := by
  constructor
  · intro h
    unfold Enqueue
    rcases h with h | h <;> simp [h]
  · intro q h1 h2 h3
    exact Enqueue_of_fields resq item c q h1 h2 h3

/-- C4 (amended) at a job without `Args` and at a job with both fields. -/
theorem enqueue_checks_fields_witness :
    Enqueue (NewResQ "") (GoVal.struct [("Queue", GoVal.str "emails")]) emptyRedis
      = Except.ok (some "unable to enqueue job with struct", emptyRedis) ∧
    Enqueue (NewResQ "")
        (GoVal.struct [("Queue", GoVal.str "emails"), ("Args", GoVal.nil)]) emptyRedis
      = Except.ok (Push (NewResQ "") "emails"
        (GoVal.struct [("Queue", GoVal.str "emails"), ("Args", GoVal.nil)]) emptyRedis) :=
  ⟨(enqueue_checks_fields (NewResQ "") (GoVal.struct [("Queue", GoVal.str "emails")])
      emptyRedis).1 (Or.inr rfl),
    (enqueue_checks_fields (NewResQ "")
      (GoVal.struct [("Queue", GoVal.str "emails"), ("Args", GoVal.nil)]) emptyRedis).2
      "emails" rfl rfl rfl⟩

/-- C4 as stated fails: the job `struct { Queue int; Args interface{} }{1, nil}`
has both fields, and `Enqueue` of it does not return what a `Push` returns: the
type assertion `queue.(string)` panics, and no command is issued before. -/
theorem enqueue_non_string_queue_panics :
    (HasField (GoVal.struct [("Queue", GoVal.int 1), ("Args", GoVal.nil)]) "Queue").1 = true ∧
    (HasField (GoVal.struct [("Queue", GoVal.int 1), ("Args", GoVal.nil)]) "Args").1 = true ∧
    GetField (GoVal.struct [("Queue", GoVal.int 1), ("Args", GoVal.nil)]) "Queue"
      = some (GoVal.int 1) ∧
    Enqueue (NewResQ "") (GoVal.struct [("Queue", GoVal.int 1), ("Args", GoVal.nil)]) emptyRedis
      = Except.error "interface conversion: interface is not string" :=
  ⟨rfl, rfl, rfl, rfl⟩

/-- C5 (amended): for a job struct whose `Queue` field holds the string `q`
and that has an `Args` field, `Enqueue` on the empty store succeeds,
`Size(q)` is 1 afterwards, and the following `Pop(q)` returns the decoded
encoding of the whole job with the entry `"Struct"` set to `q` (absent when
that encoding does not decode). -/
theorem enqueue_then_size_and_pop (resq : ResQ) (q : String) (a : GoVal)
    (fields : List (String × GoVal))
    (hq : fieldByName "Queue" fields = some (GoVal.str q))
    (ha : fieldByName "Args" fields = some a) :
    ∃ c1, Enqueue resq (GoVal.struct fields) emptyRedis = Except.ok (none, c1) ∧
    ∃ c2, Size resq q c1 = Except.ok (1, c2) ∧
      (Pop resq q c2).1
        = (Decode (Encode (GoVal.struct fields))).map (mapSet "Struct" (Json.str q)) := by
  have hE := Enqueue_of_fields resq (GoVal.struct fields) emptyRedis q
    (fieldByName_isSome_HasField fields "Queue" _ hq rfl)
    (fieldByName_isSome_HasField fields "Args" _ ha rfl) (by simpa [GetField] using hq)
  have hp := Push_no_error resq q (GoVal.struct fields) emptyRedis rfl (Or.inl rfl) (Or.inl rfl)
  obtain ⟨_, hdb⟩ := Push_ok resq q (GoVal.struct fields) emptyRedis hp
  have hup : (Push resq q (GoVal.struct fields) emptyRedis).2.up = true := by
    rw [Push_up]; rfl
  have hdb1 : (Push resq q (GoVal.struct fields) emptyRedis).2.db (queueKey q)
      = some (RVal.list [Encode (GoVal.struct fields)]) := by
    rw [hdb]; rfl
  refine ⟨(Push resq q (GoVal.struct fields) emptyRedis).2, ?_,
    (Do (Push resq q (GoVal.struct fields) emptyRedis).2 (Cmd.LLEN (queueKey q))).conn, ?_, ?_⟩
  · rw [hE, ← hp]
  · exact Size_of_list resq q _ _ hup hdb1
  · refine (Pop_head resq q _ (Encode (GoVal.struct fields)) [] ?_ ?_).1
    · rw [Do_up]; exact hup
    · rw [Do_LLEN_db]; exact hdb1

/-- C5 (amended) at the job with queue `emails` and arguments
`"to": "a@b.com"`. -/
theorem enqueue_then_size_and_pop_witness :
    ∃ c1, Enqueue (NewResQ "") (GoVal.struct [("Queue", GoVal.str "emails"),
        ("Args", GoVal.strmap [("to", GoVal.str "a@b.com")])]) emptyRedis = Except.ok (none, c1) ∧
    ∃ c2, Size (NewResQ "") "emails" c1 = Except.ok (1, c2) ∧
      (Pop (NewResQ "") "emails" c2).1
        = (Decode (Encode (GoVal.struct [("Queue", GoVal.str "emails"),
            ("Args", GoVal.strmap [("to", GoVal.str "a@b.com")])]))).map
          (mapSet "Struct" (Json.str "emails")) :=
  enqueue_then_size_and_pop (NewResQ "") "emails" (GoVal.strmap [("to", GoVal.str "a@b.com")])
    [("Queue", GoVal.str "emails"), ("Args", GoVal.strmap [("to", GoVal.str "a@b.com")])] rfl rfl

/-- C5 as stated fails: the job with queue `emails` and arguments
`"to": "a@b.com"` is encoded whole, `Enqueue` succeeds on the empty store, and
`Pop("emails")` returns the map with the keys `Queue`, `Args` and `Struct`,
which has no entry `to`. -/
theorem enqueued_job_pops_whole_record :
    Encode (GoVal.struct [("Queue", GoVal.str "emails"),
        ("Args", GoVal.strmap [("to", GoVal.str "a@b.com")])])
      = "\x7b\"Queue\":\"emails\",\"Args\":\x7b\"to\":\"a@b.com\"\x7d\x7d" ∧
    Enqueue (NewResQ "") (GoVal.struct [("Queue", GoVal.str "emails"),
        ("Args", GoVal.strmap [("to", GoVal.str "a@b.com")])]) emptyRedis
      = Except.ok (Push (NewResQ "") "emails" (GoVal.struct [("Queue", GoVal.str "emails"),
        ("Args", GoVal.strmap [("to", GoVal.str "a@b.com")])]) emptyRedis) ∧
    (Push (NewResQ "") "emails" (GoVal.struct [("Queue", GoVal.str "emails"),
        ("Args", GoVal.strmap [("to", GoVal.str "a@b.com")])]) emptyRedis).1 = none ∧
    (Pop (NewResQ "") "emails" (Push (NewResQ "") "emails"
        (GoVal.struct [("Queue", GoVal.str "emails"),
          ("Args", GoVal.strmap [("to", GoVal.str "a@b.com")])]) emptyRedis).2).1
      = some [("Queue", Json.str "emails"), ("Args", Json.obj [("to", Json.str "a@b.com")]),
          ("Struct", Json.str "emails")] ∧
    mapGet "to" [("Queue", Json.str "emails"), ("Args", Json.obj [("to", Json.str "a@b.com")]),
          ("Struct", Json.str "emails")] = none :=
  ⟨rfl, rfl, rfl, rfl, rfl⟩

/-- C6: from a store in which the list `resq:queue:q` is empty, after `N`
calls of `Push(q, _)` that all return no error, followed by `M < N` calls of
`Pop(q)`, `Size(q)` returns `N - M`. -/
theorem size_after_pushes_and_pops (resq : ResQ) (q : String) (items : List GoVal) (M : Nat)
    (c : Redis)
    (hempty : c.db (queueKey q) = none ∨ c.db (queueKey q) = some (RVal.list []))
    (hpush : ∀ e ∈ (pushAll resq q items c).1, e = none)
    (hM : M < items.length) :
    ∃ c1, Size resq q (popN resq q M (pushAll resq q items c).2)
      = Except.ok ((items.length : Int) - (M : Int), c1) := by
  have hne : items ≠ [] := by
    intro h0; rw [h0] at hM; simp at hM
  obtain ⟨hup, hdb⟩ := pushAll_ok resq q items c hpush hne
  have hl : listAt (c.db (queueKey q)) = [] := by
    rcases hempty with h | h <;> rw [h] <;> rfl
  rw [hl, List.nil_append] at hdb
  have hup1 : (pushAll resq q items c).2.up = true := by rw [pushAll_up]; exact hup
  obtain ⟨hup2, hdb2⟩ := popN_list resq q M _ (items.map Encode) hup1 hdb (by simpa using hM)
  have hlen : (((List.drop M (List.map Encode items)).length : Nat) : Int)
      = (items.length : Int) - (M : Int) := by
    simp only [List.length_drop, List.length_map]
    omega
  exact ⟨_, by rw [Size_of_list resq q _ _ hup2 hdb2, hlen]⟩

/-- C6 at three pushes and one pop on the empty store. -/
theorem size_after_pushes_and_pops_witness :
    ∃ c1, Size (NewResQ "") "q" (popN (NewResQ "") "q" 1
        (pushAll (NewResQ "") "q" [GoVal.int 1, GoVal.int 2, GoVal.int 3] emptyRedis).2)
      = Except.ok (((3 : Nat) : Int) - ((1 : Nat) : Int), c1) :=
  size_after_pushes_and_pops (NewResQ "") "q" [GoVal.int 1, GoVal.int 2, GoVal.int 3] 1 emptyRedis
    (Or.inl rfl) (by decide) (by decide)

/-- C7 fails on the code: in every store state in which the `SMEMBERS` read
of `resq:queues` returns an error, `Queues()` does not return: the type
assertion on the reply panics. -/
theorem queues_panics_on_failed_read (resq : ResQ) (c : Redis)
    (h : (Do c (Cmd.SMEMBERS WATCHED_QUEUES)).err ≠ none) :
    Queues resq c
      = Except.error "interface conversion: interface is not []interface \x7b\x7d" := by
  unfold Queues members
  cases hup : c.up with
  | false => simp [Do, hup]
  | true =>
    cases hk : c.db WATCHED_QUEUES with
    | none => simp [Do, hup, hk, okReply] at h
    | some w =>
      cases w with
      | set xs => simp [Do, hup, hk, okReply] at h
      | str s => simp [Do, hup, hk, errorReply]
      | list xs => simp [Do, hup, hk, errorReply]

/-- C7 at the empty store with the connection down: `SMEMBERS` returns a nil
reply and an error, and `Queues()` panics. -/
theorem queues_panics_on_failed_read_witness :
    (Do { emptyRedis with up := false } (Cmd.SMEMBERS WATCHED_QUEUES)).reply.isNil = true ∧
    (Do { emptyRedis with up := false } (Cmd.SMEMBERS WATCHED_QUEUES)).err ≠ none ∧
    Queues (NewResQ "") { emptyRedis with up := false }
      = Except.error "interface conversion: interface is not []interface \x7b\x7d" :=
  ⟨rfl, by decide, queues_panics_on_failed_read (NewResQ "") { emptyRedis with up := false }
    (by decide)⟩

/-- C8 fails on the code: after three `Incr` calls on the counter `failed`
from the empty store, `NewStat("failed").Get()` returns 3 and the entry
`"failed"` of `Info()` is 0, read from the key `resq:stat:falied`; the entry
`"processed"` is the value of the counter `processed`. -/
theorem info_failed_reads_misspelt_counter :
    (incrN (NewStat "failed" (NewResQ "")) 3 emptyRedis).1 = [1, 1, 1] ∧
    ((NewStat "failed" (NewResQ "")).Get
      (incrN (NewStat "failed" (NewResQ "")) 3 emptyRedis).2).map Prod.fst = Except.ok 3 ∧
    (Info (NewResQ "") (incrN (NewStat "failed" (NewResQ "")) 3 emptyRedis).2).map
      (fun r => infoGet "failed" r.1) = Except.ok (some (GoVal.int 0)) ∧
    (NewStat "falied" (NewResQ "")).Key = "resq:stat:falied" ∧
    (Info (NewResQ "") (incrN (NewStat "processed" (NewResQ "")) 2 emptyRedis).2).map
      (fun r => infoGet "processed" r.1) = Except.ok (some (GoVal.int 2)) :=
  ⟨rfl, rfl, rfl, rfl, rfl⟩

/-- C9: from a store in which the key `resq:stat:x` is absent, when none of
the `INCR` commands of `k` sequential `Incr` calls is answered by an error,
each call returns the flag 1 and a following `Get` returns `k`. -/
theorem incr_k_times_then_get (resq : ResQ) (x : String) (k : Nat) (c : Redis)
    (habs : c.db (statKey x) = none)
    (hok : ∀ i, i < k →
      (Do (incrN (NewStat x resq) i c).2 (Cmd.INCR (statKey x))).err = none) :
    (incrN (NewStat x resq) k c).1 = List.replicate k 1 ∧
    ∃ c1, (NewStat x resq).Get (incrN (NewStat x resq) k c).2 = Except.ok ((k : Int), c1) := by
  have hkey : (NewStat x resq).Key = statKey x := rfl
  have hup : k ≠ 0 → c.up = true := by
    intro hk
    have h0 := hok 0 (by omega)
    cases hu : c.up with
    | true => rfl
    | false => simp [incrN, Do, hu] at h0
  have hc0 : c.db (NewStat x resq).Key = counterVal 0 := habs
  have hlt : k < int64Bound := by
    by_contra hge
    have hk0 : k ≠ 0 := by
      intro h0; rw [h0] at hge; exact hge (by decide)
    obtain ⟨_, hu, hc⟩ := incrN_of_lt (NewStat x resq) (int64Bound - 1) 0 c (hup hk0) hc0
      (by decide)
    rw [Nat.zero_add, hkey] at hc
    exact Do_INCR_overflow _ _ hu hc (hok (int64Bound - 1) (by omega))
  by_cases hk0 : k = 0
  · subst hk0
    exact ⟨rfl, _, Get_counter (NewStat x resq) 0 c (fun h => absurd rfl h) hc0 hlt⟩
  · obtain ⟨h1, hu, hc⟩ := incrN_of_lt (NewStat x resq) k 0 c (hup hk0) hc0 (by omega)
    rw [Nat.zero_add] at hc
    exact ⟨h1, _, Get_counter (NewStat x resq) k _ (fun _ => hu) hc hlt⟩

/-- C9 at three `Incr` calls on the counter `jobs` of the empty store. -/
theorem incr_k_times_then_get_witness :
    (incrN (NewStat "jobs" (NewResQ "")) 3 emptyRedis).1 = List.replicate 3 1 ∧
    ∃ c1, (NewStat "jobs" (NewResQ "")).Get (incrN (NewStat "jobs" (NewResQ "")) 3 emptyRedis).2
      = Except.ok (((3 : Nat) : Int), c1) :=
  incr_k_times_then_get (NewResQ "") "jobs" 3 emptyRedis rfl (by
    intro i hi
    interval_cases i <;> rfl)

/-- C10: the queue key of `q` equals the queue key of `q1` only if `q = q1`,
and it is never the registry key, the worker key or a stat key; for `q1`
different from `q`, `Push(q, item)` and `Pop(q)` leave the value of `Size(q1)`
unchanged, and they leave the value of `Get` of every counter unchanged. -/
theorem key_namespaces_isolated (resq : ResQ) (q q1 x : String) (item : GoVal) (c : Redis) :
    (queueKey q = queueKey q1 → q = q1) ∧
    queueKey q ≠ WATCHED_QUEUES ∧ queueKey q ≠ WATCHED_WORKERS ∧ queueKey q ≠ statKey x ∧
    (q1 ≠ q →
      (Size resq q1 (Push resq q item c).2).map Prod.fst = (Size resq q1 c).map Prod.fst ∧
      (Size resq q1 (Pop resq q c).2).map Prod.fst = (Size resq q1 c).map Prod.fst) ∧
    ((NewStat x resq).Get (Push resq q item c).2).map Prod.fst
      = ((NewStat x resq).Get c).map Prod.fst ∧
    ((NewStat x resq).Get (Pop resq q c).2).map Prod.fst
      = ((NewStat x resq).Get c).map Prod.fst := by
  refine ⟨queueKey_inj q q1, queueKey_ne_queues q, queueKey_ne_workers q,
    queueKey_ne_statKey q x, ?_, ?_, ?_⟩
  · intro hne
    have hk : queueKey q1 ≠ queueKey q := fun h => hne (queueKey_inj q1 q h)
    exact ⟨Size_congr resq q1 _ _ (Push_up _ _ _ _)
        (Push_db _ _ _ _ _ hk (queueKey_ne_queues q1)),
      Size_congr resq q1 _ _ (Pop_up _ _ _) (Pop_db _ _ _ _ hk)⟩
  · exact Get_congr _ _ _ (Push_up _ _ _ _)
      (Push_db _ _ _ _ _ (fun h => queueKey_ne_statKey q x h.symm) (statKey_ne_queues x))
  · exact Get_congr _ _ _ (Pop_up _ _ _)
      (Pop_db _ _ _ _ (fun h => queueKey_ne_statKey q x h.symm))

/-- C10 at the queues `a` and `b`: a push to `a` and a pop from `a` leave the
size 1 of `b` as it is. -/
theorem key_namespaces_isolated_witness :
    (Size (NewResQ "") "b" (Push (NewResQ "") "a" (GoVal.int 1)
        (Push (NewResQ "") "b" (GoVal.int 2) emptyRedis).2).2).map Prod.fst
      = Except.ok 1 ∧
    (Size (NewResQ "") "b" (Pop (NewResQ "") "a"
        (Push (NewResQ "") "b" (GoVal.int 2) emptyRedis).2).2).map Prod.fst
      = Except.ok 1 :=
  ⟨((key_namespaces_isolated (NewResQ "") "a" "b" "x" (GoVal.int 1)
      (Push (NewResQ "") "b" (GoVal.int 2) emptyRedis).2).2.2.2.2.1 (by decide)).1.trans rfl,
    ((key_namespaces_isolated (NewResQ "") "a" "b" "x" (GoVal.int 1)
      (Push (NewResQ "") "b" (GoVal.int 2) emptyRedis).2).2.2.2.2.1 (by decide)).2.trans rfl⟩

end Gores
